import Mathlib

/-!
Shallow embedding of the SRT translator core (src/src/components/SRTTranslator.tsx).
Strings are modelled as List Char; JavaScript string operations (trim, split,
regex match, parseInt) are translated operation by operation from the source.
-/

/-- Set of JavaScript whitespace characters: the WhiteSpace and LineTerminator
productions, which is also the set matched by the regex class backslash-s and
the set removed by String.prototype.trim. -/
def isJsWS (c : Char) : Bool :=
  c = ' ' || c = '\t' || c = '\n' || c = '\u000B' || c = '\u000C' || c = '\r' ||
  c = ' ' || c = ' ' || (0x2000 ≤ c.toNat && c.toNat ≤ 0x200A) ||
  c = ' ' || c = ' ' || c = ' ' || c = ' ' || c = '　' ||
  c = '﻿'

/-- JavaScript String.prototype.trim: remove leading and trailing whitespace. -/
def trimJS (l : List Char) : List Char :=
  ((l.dropWhile isJsWS).reverse.dropWhile isJsWS).reverse

/-- Length of the separator consumed after an initial newline by the regex
newline-whitespace*-newline, matched greedily: the whitespace run following the
initial newline is consumed up to (and including) its last newline character;
none when the run contains no newline, in which case no separator starts here. -/
def sepLen (rest : List Char) : Option Nat :=
  let run := rest.takeWhile isJsWS
  if run.contains '\n' then
    some (run.length - (run.reverse.takeWhile (fun c => c != '\n')).length)
  else none

/-- Fuelled worker for the regex split content.split of the pattern
newline-whitespace*-newline: scans left to right, starts a separator at every
newline whose following whitespace run contains another newline (leftmost match,
greedy extent, exactly the JavaScript regex-split semantics). One unit of fuel
is spent per consumed character and every step consumes at least one character,
so fuel equal to the input length (as supplied by splitBlocksJS) is always
sufficient and the fuel-exhausted branch is unreachable. -/
def splitSepGo : Nat → List Char → List Char → List (List Char)
  | _, acc, [] => [acc.reverse]
  | 0, acc, l => [acc.reverse ++ l]
  | fuel + 1, acc, c :: rest =>
    if c = '\n' then
      match sepLen rest with
      | some k => acc.reverse :: splitSepGo fuel [] (rest.drop k)
      | none => splitSepGo fuel (c :: acc) rest
    else splitSepGo fuel (c :: acc) rest

/-- JavaScript content.split on the regex newline-whitespace*-newline, as used
in parseSRT to cut the (already trimmed) file into blocks. -/
def splitBlocksJS (l : List Char) : List (List Char) :=
  splitSepGo l.length [] l

/-- Decimal digit value accumulator for parseInt with radix 10. -/
def decDigitsToNat (ds : List Char) : Nat :=
  ds.foldl (fun a c => a * 10 + (c.toNat - 48)) 0

/-- Hexadecimal digit test, as in parseInt with radix 16. -/
def isHexDig (c : Char) : Bool :=
  c.isDigit || ('a' ≤ c && c ≤ 'f') || ('A' ≤ c && c ≤ 'F')

/-- Hexadecimal digit value accumulator for parseInt after a 0x prefix. -/
def hexDigitsToNat (ds : List Char) : Nat :=
  ds.foldl
    (fun a c =>
      a * 16 + (if c.isDigit then c.toNat - 48
                else if 'a' ≤ c && c ≤ 'f' then c.toNat - 87
                else c.toNat - 55))
    0

/-- JavaScript parseInt with unspecified radix, as called on the first line of
each block: skip leading whitespace, read an optional sign, switch to base 16
exactly when the remainder starts with 0x or 0X, read the longest prefix of
digits of the chosen base, and return NaN (modelled as none) when that prefix
is empty. Trailing non-digit characters are ignored. -/
def jsParseInt (s : List Char) : Option Int :=
  let s1 := s.dropWhile isJsWS
  let signed : Int × List Char :=
    match s1 with
    | '-' :: r => (-1, r)
    | '+' :: r => (1, r)
    | r => (1, r)
  match signed.2 with
  | '0' :: 'x' :: r =>
    let ds := r.takeWhile isHexDig
    if ds.isEmpty then none else some (signed.1 * Int.ofNat (hexDigitsToNat ds))
  | '0' :: 'X' :: r =>
    let ds := r.takeWhile isHexDig
    if ds.isEmpty then none else some (signed.1 * Int.ofNat (hexDigitsToNat ds))
  | r =>
    let ds := r.takeWhile Char.isDigit
    if ds.isEmpty then none else some (signed.1 * Int.ofNat (decDigitsToNat ds))

/-- Test for one timecode of the regex shape: two digits, colon, two digits,
colon, two digits, comma, three digits (12 characters in all); the digit class
is the ASCII class matched by backslash-d. -/
def isTimecode (l : List Char) : Bool :=
  l.length == 12 &&
  (l.getD 0 ' ').isDigit && (l.getD 1 ' ').isDigit && (l.getD 2 ' ' == ':') &&
  (l.getD 3 ' ').isDigit && (l.getD 4 ' ').isDigit && (l.getD 5 ' ' == ':') &&
  (l.getD 6 ' ').isDigit && (l.getD 7 ' ').isDigit && (l.getD 8 ' ' == ',') &&
  (l.getD 9 ' ').isDigit && (l.getD 10 ' ').isDigit && (l.getD 11 ' ').isDigit

/-- The literal arrow separator of the timecode line. -/
def arrowSep : List Char := (" --> ".data)

/-- Attempt to match the timecode-line regex (timecode, arrow, timecode) at the
start of the list; on success return the two captured groups. The pattern has
fixed length 29 = 12 + 5 + 12. -/
def matchAt (l : List Char) : Option (List Char × List Char) :=
  if isTimecode (l.take 12) && ((l.drop 12).take 5 == arrowSep) &&
      isTimecode ((l.drop 17).take 12) then
    some (l.take 12, (l.drop 17).take 12)
  else none

/-- JavaScript String.prototype.match with the timecode regex: an unanchored
search returning the leftmost match, here realised by trying matchAt at every
position from the left. -/
def findTimeMatch : List Char → Option (List Char × List Char)
  | [] => matchAt []
  | c :: rest =>
    match matchAt (c :: rest) with
    | some r => some r
    | none => findTimeMatch rest

/-- The SRTEntry interface of the source. The index field is the result of an
unguarded parseInt, so it is modelled as Option Int with none standing for the
JavaScript NaN produced when the parse fails. -/
structure SRTEntry where
  index : Option Int
  startTime : List Char
  endTime : List Char
  text : List Char
deriving Repr, DecidableEq

instance : Inhabited SRTEntry := ⟨⟨none, [], [], []⟩⟩

/-- Body of the blocks.forEach loop of parseSRT: split the block into lines on
the newline character, require at least three lines, parse the first line with
parseInt after trimming, match the timecode regex against the second line, drop
the block when the match fails, and otherwise build the entry whose text is the
remaining lines joined by newline and trimmed. -/
def parseBlock (block : List Char) : Option SRTEntry :=
  match block.splitOn '\n' with
  | l0 :: l1 :: l2 :: ls =>
    match findTimeMatch l1 with
    | some (s, e) =>
      some { index := jsParseInt (trimJS l0), startTime := s, endTime := e,
             text := trimJS (List.intercalate (['\n']) (l2 :: ls)) }
    | none => none
  | _ => none

/-- parseSRT from the source: trim the whole content, split it into blocks on
blank lines, and keep the entries of the blocks that parse. -/
def parseSRT (content : List Char) : List SRTEntry :=
  (splitBlocksJS (trimJS content)).filterMap parseBlock

/-- translateText from the source, with the fixed 100 ms delay elided (it does
not affect the returned string): the designated language identifier gets the
Hebrew literal prefix, every other identifier gets the English literal prefix,
and the original text follows the prefix verbatim. -/
def translateText (text targetLanguage : List Char) : List Char :=
  if targetLanguage = ("hebrew".data) then ("תרגום: ".data) ++ text
  else ("Translation: ".data) ++ text

/-- The template string emitted by generateSRT for the entry at 0-based map
position i: the 1-based position in decimal, a newline, the start and end
timecodes joined by the arrow, a newline, the text, and a trailing newline. -/
def genBlock (i : Nat) (e : SRTEntry) : List Char :=
  ((Nat.repr (i + 1)).data) ++ ('\n' :: (e.startTime ++ arrowSep ++ e.endTime ++
    ('\n' :: (e.text ++ ['\n']))))

/-- generateSRT from the source: map each entry together with its position to
its block template and join the blocks with a single newline. -/
def generateSRT (entries : List SRTEntry) : List Char :=
  List.intercalate (['\n']) (entries.enum.map (fun p => genBlock p.1 p.2))

/-- Value-level model of Promise.all over the per-entry translation calls: the
joined promise resolves with the list of results in input order when every call
resolves, and rejects as soon as any call rejects (the rejection reason is
irrelevant here, so the error type is Unit). -/
def promiseAll {α : Type} : List (Except Unit α) → Except Unit (List α)
  | [] => Except.ok []
  | Except.error e :: _ => Except.error e
  | Except.ok a :: rest =>
    match promiseAll rest with
    | Except.ok as => Except.ok (a :: as)
    | Except.error e => Except.error e

/-- The component state touched by handleTranslate: the translatedSRT and
originalEntries useState cells, plus one flag per toast kind recording whether
that toast has fired. -/
structure TState where
  translatedSRT : List Char
  originalEntries : List SRTEntry
  errorToast : Bool
  successToast : Bool
deriving Repr, DecidableEq

/-- handleTranslate from the source, after the upfront guard has passed (a file
and a language are selected): parse the content, store the entries in
originalEntries, run one translation per entry and join them with Promise.all;
on success overwrite translatedSRT with the generated text and fire the success
toast, on any failure fire the error toast and leave translatedSRT untouched.
The translation step is a parameter tr, as the source awaits translateText,
here generalised so that failing translators can be considered. -/
def handleTranslate (tr : List Char → List Char → Except Unit (List Char))
    (lang content : List Char) (st : TState) : TState :=
  let entries := parseSRT content
  match promiseAll (entries.map (fun e => (tr e.text lang).map
      (fun t => { e with text := t }))) with
  | Except.ok te =>
    { st with originalEntries := entries, translatedSRT := generateSRT te,
              successToast := true }
  | Except.error _ =>
    { st with originalEntries := entries, errorToast := true }

/-- One write into the Promise.all result buffer: the call at position i has
completed and stores its value in slot i. -/
def updSlot {α : Type} (buf : Nat → Option α) (i : Nat) (v : Option α) :
    Nat → Option α :=
  fun j => if j = i then v else buf j

/-- Replay a sequence of completions: each completing call writes the value of
its own position into its own slot of the result buffer, in completion order. -/
def applyCompletions {α : Type} (values : List α) :
    List Nat → (Nat → Option α) → (Nat → Option α)
  | [], buf => buf
  | i :: rest, buf => applyCompletions values rest (updSlot buf i values[i]?)

/-- Stable insertion of a call index into a list of call indices ordered by
completion delay. -/
def insertByKey (key : Nat → Nat) (i : Nat) : List Nat → List Nat
  | [] => [i]
  | j :: rest => if key i < key j then i :: j :: rest else j :: insertByKey key i rest

/-- Insertion sort of call indices by completion delay. -/
def sortByKey (key : Nat → Nat) : List Nat → List Nat
  | [] => []
  | i :: rest => insertByKey key i (sortByKey key rest)

/-- The order in which the n concurrently launched calls complete, given the
delay assigned to each call: indices sorted by their delay. -/
def completionOrder (n : Nat) (delays : List Nat) : List Nat :=
  sortByKey (fun i => delays.getD i 0) (List.range n)

/-- Scheduler-level model of Promise.all over the fan-out of one call per list
position: all calls are launched together, each completes after its assigned
delay and writes its slot, and once all have completed the joined result reads
the slots back in position order. -/
def promiseAllSim {α : Type} (values : List α) (delays : List Nat) :
    List (Option α) :=
  (List.range values.length).map
    (applyCompletions values (completionOrder values.length delays) (fun _ => none))

/-! ## Helper lemmas -/

/-- The enumerated map inside generateSRT, rewritten as a map over positions:
block i is built from the entry at position i. -/
theorem generateSRT_eq_range (E : List SRTEntry) :
    generateSRT E = List.intercalate (['\n'])
      ((List.range E.length).map (fun i => genBlock i (E.getD i default))) := by
  unfold generateSRT
  congr 1
  apply List.ext_getElem
  · simp
  · intro n h1 h2
    have hn : n < E.length := by simpa using h1
    simp only [List.getElem_map, List.getElem_enum, List.getElem_range]
    rw [List.getD_eq_getElem E default hn]

/-- Unfolding of intercalate on a list with at least two elements. -/
theorem intercalate_cons₂ {α : Type} (s a b : List α) (t : List (List α)) :
    List.intercalate s (a :: b :: t) = a ++ s ++ List.intercalate s (b :: t) := by
  simp [List.intercalate, List.intersperse]

/-- Every member of the joined list occurs contiguously inside the join. -/
theorem intercalate_mem_decomp {α : Type} (s x : List α) :
    ∀ L : List (List α), x ∈ L → ∃ u v, List.intercalate s L = u ++ (x ++ v) := by
  intro L
  induction L with
  | nil => intro h; cases h
  | cons a t ih =>
    intro h
    rcases List.mem_cons.mp h with hx | hm
    · subst hx
      cases t with
      | nil => exact ⟨[], [], by simp [List.intercalate, List.intersperse]⟩
      | cons b t' =>
        exact ⟨[], s ++ List.intercalate s (b :: t'),
          by rw [intercalate_cons₂]; simp⟩
    · have hne : t ≠ [] := by intro hnil; rw [hnil] at hm; cases hm
      obtain ⟨b, t', rfl⟩ := List.exists_cons_of_ne_nil hne
      obtain ⟨u, v, huv⟩ := ih hm
      exact ⟨a ++ s ++ u, v, by rw [intercalate_cons₂, huv]; simp⟩
/-- A string passing the timecode test has exactly 12 characters. -/
theorem isTimecode_length {l : List Char} (h : isTimecode l = true) :
    l.length = 12 := by
  by_cases hl : l.length = 12
  · exact hl
  · exfalso
    simp [isTimecode, hl] at h

/-- Inversion of a successful anchored match: the captures are the two 12-char
windows and the middle window is the arrow separator. -/
theorem matchAt_some {l s e : List Char} (h : matchAt l = some (s, e)) :
    s = l.take 12 ∧ e = (l.drop 17).take 12 ∧ (l.drop 12).take 5 = arrowSep ∧
    isTimecode s = true ∧ isTimecode e = true := by
  unfold matchAt at h
  by_cases hc : (isTimecode (l.take 12) && ((l.drop 12).take 5 == arrowSep) &&
      isTimecode ((l.drop 17).take 12)) = true
  · rw [if_pos hc] at h
    injection h with h2
    obtain ⟨h3, h4⟩ := Prod.mk.injEq .. |>.mp h2
    simp only [Bool.and_eq_true, beq_iff_eq] at hc
    exact ⟨h3.symm, h4.symm, hc.1.2, h3 ▸ hc.1.1, h4 ▸ hc.2⟩
  · rw [if_neg hc] at h
    cases h

/-- Unfolding equation of the leftmost-match search on a nonempty list. -/
theorem findTimeMatch_cons (c : Char) (cs : List Char) :
    findTimeMatch (c :: cs) =
      match matchAt (c :: cs) with
      | some r => some r
      | none => findTimeMatch cs := rfl

/-- If the search succeeds on a suffix, it succeeds on the whole line (with
possibly different, earlier captures). -/
theorem findTimeMatch_of_contains (pre : List Char) :
    ∀ l : List Char, (∃ r, findTimeMatch l = some r) →
    ∃ r, findTimeMatch (pre ++ l) = some r := by
  induction pre with
  | nil => intro l h; simpa using h
  | cons c cs ih =>
    intro l hl
    obtain ⟨r, hr⟩ := ih l hl
    rw [List.cons_append, findTimeMatch_cons]
    cases hm : matchAt (c :: (cs ++ l)) with
    | some r2 => exact ⟨r2, rfl⟩
    | none => exact ⟨r, hr⟩

/-- An anchored occurrence of the full pattern is found by the search. -/
theorem findTimeMatch_start {s e post : List Char} (hs : isTimecode s = true)
    (he : isTimecode e = true) :
    findTimeMatch (s ++ (arrowSep ++ (e ++ post))) = some (s, e) := by
  have hs12 := isTimecode_length hs
  have he12 := isTimecode_length he
  have ha5 : arrowSep.length = 5 := rfl
  have h1 : (s ++ (arrowSep ++ (e ++ post))).take 12 = s := by
    rw [← hs12, List.take_left]
  have h2 : (s ++ (arrowSep ++ (e ++ post))).drop 12 = arrowSep ++ (e ++ post) := by
    rw [← hs12, List.drop_left]
  have h3 : ((s ++ (arrowSep ++ (e ++ post))).drop 12).take 5 = arrowSep := by
    rw [h2, ← ha5, List.take_left]
  have h4 : (s ++ (arrowSep ++ (e ++ post))).drop 17 = e ++ post := by
    have h17 : (17 : Nat) = 12 + 5 := rfl
    rw [h17, ← List.drop_drop, h2, ← ha5, List.drop_left]
  have h5 : ((s ++ (arrowSep ++ (e ++ post))).drop 17).take 12 = e := by
    rw [h4, ← he12, List.take_left]
  have hmatch : matchAt (s ++ (arrowSep ++ (e ++ post))) = some (s, e) := by
    unfold matchAt
    rw [h1, h3, h5]
    simp [hs, he]
  cases s with
  | nil => cases hs12
  | cons c s' =>
    show findTimeMatch (c :: (s' ++ (arrowSep ++ (e ++ post)))) = some (c :: s', e)
    have hm2 : matchAt (c :: (s' ++ (arrowSep ++ (e ++ post)))) = some (c :: s', e) :=
      hmatch
    rw [findTimeMatch_cons, hm2]

/-- Splitting a line around a successful anchored match at position 0. -/
theorem take29_decomp {l : List Char} (h5 : (l.drop 12).take 5 = arrowSep) :
    l = (l.take 12 ++ (arrowSep ++ (l.drop 17).take 12)) ++ l.drop 29 := by
  conv_lhs => rw [← List.take_append_drop 29 l]
  congr 1
  have h29 : (29 : Nat) = 12 + 17 := rfl
  rw [h29, List.take_add]
  congr 1
  have h17 : (17 : Nat) = 5 + 12 := rfl
  rw [h17, List.take_add, h5, List.drop_drop]

/-- Inversion of the leftmost-match search: on success the line decomposes as
junk, then the first capture, the arrow, the second capture, then junk, and
both captures pass the timecode test. -/
theorem findTimeMatch_decomp :
    ∀ l s e : List Char, findTimeMatch l = some (s, e) →
    isTimecode s = true ∧ isTimecode e = true ∧
    ∃ u v, l = u ++ ((s ++ (arrowSep ++ e)) ++ v) := by
  intro l
  induction l with
  | nil =>
    intro s e h
    have hnil : findTimeMatch [] = none := rfl
    rw [hnil] at h
    cases h
  | cons c cs ih =>
    intro s e h
    rw [findTimeMatch_cons] at h
    cases hm : matchAt (c :: cs) with
    | some r =>
      rw [hm] at h
      simp only at h
      rw [h] at hm
      obtain ⟨hs, he, h5, hts, hte⟩ := matchAt_some hm
      refine ⟨hts, hte, [], (c :: cs).drop 29, ?_⟩
      have hd := take29_decomp h5
      rw [List.nil_append, hs, he]
      exact hd
    | none =>
      rw [hm] at h
      simp only at h
      obtain ⟨hts, hte, u, v, huv⟩ := ih s e h
      exact ⟨hts, hte, c :: u, v, by rw [List.cons_append, huv]⟩

/-- Inversion of a successful block parse: the block has at least three lines,
the timecode match on the second line produced the entry's timecodes, the index
is the unguarded parse of the trimmed first line, and the text is the join of
the remaining lines, trimmed. -/
theorem parseBlock_some {b : List Char} {en : SRTEntry}
    (h : parseBlock b = some en) :
    ∃ l0 l1 l2 ls, b.splitOn '\n' = l0 :: l1 :: l2 :: ls ∧
      findTimeMatch l1 = some (en.startTime, en.endTime) ∧
      en.index = jsParseInt (trimJS l0) ∧
      en.text = trimJS (List.intercalate (['\n']) (l2 :: ls)) := by
  unfold parseBlock at h
  split at h
  case h_1 l0 l1 l2 ls heq =>
    split at h
    case h_1 s e hm =>
      injection h with h2
      refine ⟨l0, l1, l2, ls, heq, ?_, ?_, ?_⟩
      · rw [← h2]; exact hm
      · rw [← h2]
      · rw [← h2]
    case h_2 => cases h
  case h_2 => cases h

/-- A block with fewer than three lines is dropped. -/
theorem parseBlock_short {b : List Char}
    (h : (b.splitOn '\n').length < 3) : parseBlock b = none := by
  unfold parseBlock
  split
  case h_1 l0 l1 l2 ls heq =>
    exfalso
    rw [heq] at h
    simp at h
    omega
  case h_2 => rfl

/-- A block of at least three lines whose second line has no timecode match is
dropped. -/
theorem parseBlock_nomatch {b l0 l1 l2 : List Char} {ls : List (List Char)}
    (hsp : b.splitOn '\n' = l0 :: l1 :: l2 :: ls)
    (hm : findTimeMatch l1 = none) : parseBlock b = none := by
  unfold parseBlock
  rw [hsp]
  simp [hm]

/-- Unfolding equation of the Promise.all join past a resolved head. -/
theorem promiseAll_cons_ok {α : Type} (a : α) (rest : List (Except Unit α)) :
    promiseAll (Except.ok a :: rest) =
      match promiseAll rest with
      | Except.ok as => Except.ok (a :: as)
      | Except.error e => Except.error e := rfl

/-- If any call in the batch rejects, the Promise.all join rejects. -/
theorem promiseAll_error_of_mem {α : Type} :
    ∀ l : List (Except Unit α), Except.error () ∈ l →
    promiseAll l = Except.error () := by
  intro l
  induction l with
  | nil => intro h; cases h
  | cons x rest ih =>
    intro h
    rcases List.mem_cons.mp h with hx | hr
    · rw [← hx]; rfl
    · cases x with
      | error e => cases e; rfl
      | ok a => rw [promiseAll_cons_ok, ih hr]

/-- Inserting an index into a sorted completion list permutes pushing it in
front. -/
theorem insertByKey_perm (key : Nat → Nat) (i : Nat) :
    ∀ l : List Nat, (insertByKey key i l).Perm (i :: l) := by
  intro l
  induction l with
  | nil => exact List.Perm.refl _
  | cons j rest ih =>
    unfold insertByKey
    by_cases hk : key i < key j
    · rw [if_pos hk]
    · rw [if_neg hk]
      exact (ih.cons j).trans (List.Perm.swap i j rest)

/-- Sorting by completion delay permutes the call indices. -/
theorem sortByKey_perm (key : Nat → Nat) :
    ∀ l : List Nat, (sortByKey key l).Perm l := by
  intro l
  induction l with
  | nil => exact List.Perm.refl _
  | cons i rest ih =>
    exact (insertByKey_perm key i (sortByKey key rest)).trans (ih.cons i)

/-- Every launched call appears in the completion order. -/
theorem completionOrder_mem {n : Nat} {delays : List Nat} {j : Nat}
    (h : j < n) : j ∈ completionOrder n delays :=
  ((sortByKey_perm _ _).mem_iff).mpr (List.mem_range.mpr h)

/-- The buffer after replaying a completion sequence: every completed slot
holds the value of its own call, untouched slots keep their previous content. -/
theorem applyCompletions_apply {α : Type} (values : List α) :
    ∀ (order : List Nat) (buf : Nat → Option α) (j : Nat),
    applyCompletions values order buf j =
      if j ∈ order then values[j]? else buf j := by
  intro order
  induction order with
  | nil =>
    intro buf j
    simp [applyCompletions]
  | cons i rest ih =>
    intro buf j
    have hstep : applyCompletions values (i :: rest) buf =
        applyCompletions values rest (updSlot buf i values[i]?) := rfl
    rw [hstep, ih]
    by_cases hr : j ∈ rest
    · simp [hr, List.mem_cons]
    · by_cases hij : j = i
      · subst hij
        simp [hr, updSlot, List.mem_cons]
      · simp [hr, hij, updSlot, List.mem_cons]

/-- Reading a list back through positional lookups over its range of indices. -/
theorem range_map_lookup {α : Type} :
    ∀ l : List α, (List.range l.length).map (fun j => l[j]?) = l.map some := by
  intro l
  induction l with
  | nil => simp
  | cons a t ih =>
    rw [List.length_cons, List.range_succ_eq_map]
    simp only [List.map_cons, List.map_map]
    congr 1
    · simp
    · rw [← ih]
      apply List.map_congr_left
      intro x hx
      simp [Function.comp, Nat.succ_eq_add_one]

/-- Collapsing a list of definitely-present optional results. -/
theorem reduceOption_map_some {α : Type} (l : List α) :
    (l.map some).reduceOption = l := by
  induction l with
  | nil => rfl
  | cons a t ih => simp [List.reduceOption, ih]

/-- Scheduler-level Promise.all: whatever delays the individual calls complete
with, the joined result lists every value at its original position. -/
theorem promiseAllSim_eq {α : Type} (values : List α) (delays : List Nat) :
    promiseAllSim values delays = values.map some := by
  unfold promiseAllSim
  rw [← range_map_lookup values]
  apply List.map_congr_left
  intro j hj
  rw [applyCompletions_apply]
  rw [if_pos (completionOrder_mem (List.mem_range.mp hj))]

example : parseSRT ("1\n00:00:01,000 --> 00:00:02,000\nHello".data) =
    [⟨some 1, "00:00:01,000".data, "00:00:02,000".data, "Hello".data⟩] := by
  decide

example : generateSRT [⟨some 7, "00:00:01,000".data, "00:00:02,000".data, "Hi".data⟩] =
    ("1\n00:00:01,000 --> 00:00:02,000\nHi\n".data) := by
  decide

example : parseSRT ("5\nnot-a-timecode\nHello".data) = [] := by decide

example : jsParseInt ("abc".data) = none := by decide

/-! ## Claims -/

/-- C1: Round-trip renumbering. For every input string X, generateSRT applied
to parseSRT X is the single-newline join of exactly one block per retained
entry (N blocks for N retained entries); the entries are retained in the
relative order of their source blocks (parseSRT is the order-preserving
filterMap of parseBlock over the source blocks, first conjunct), the block at
0-based position i is built from the i-th retained entry, and its index line is
the decimal numeral of i + 1; the index values declared in X appear nowhere in
the output. -/
theorem claim_C1 : ∀ X : List Char,
    parseSRT X = (splitBlocksJS (trimJS X)).filterMap parseBlock ∧
    generateSRT (parseSRT X) = List.intercalate (['\n'])
      ((List.range (parseSRT X).length).map (fun i =>
        ((Nat.repr (i + 1)).data) ++ ('\n' ::
          (((parseSRT X).getD i default).startTime ++ arrowSep ++
            ((parseSRT X).getD i default).endTime ++
            ('\n' :: (((parseSRT X).getD i default).text ++ ['\n'])))))) := by
  intro X
  refine ⟨rfl, ?_⟩
  simpa only [genBlock] using generateSRT_eq_range (parseSRT X)

/-- C4: Generator output format. generateSRT E equals the single-newline join
of one string per entry at 0-based position i, of the shape: decimal numeral of
i + 1, newline, startTime, arrow, endTime, newline, text, newline. Hence
consecutive blocks are separated by exactly one blank line, there is no leading
blank line, and the empty entry list yields the empty string (first
conjunct). -/
theorem claim_C4 : generateSRT [] = [] ∧ ∀ E : List SRTEntry,
    generateSRT E = List.intercalate (['\n'])
      ((List.range E.length).map (fun i =>
        ((Nat.repr (i + 1)).data) ++ ('\n' ::
          ((E.getD i default).startTime ++ arrowSep ++ (E.getD i default).endTime ++
            ('\n' :: ((E.getD i default).text ++ ['\n'])))))) :=
  ⟨rfl, fun E => by simpa only [genBlock] using generateSRT_eq_range E⟩

/-- C5: Placeholder translation mapping. With target language exactly equal to
the hebrew identifier, translateText returns the fixed Hebrew prefix followed
by the original text; with any other identifier it returns the fixed prefix
Translation-colon-space followed by the original text; the two prefixes differ,
and the original text is always a verbatim suffix of the result. -/
theorem claim_C5 :
    (∀ t : List Char, translateText t ("hebrew".data) = ("תרגום: ".data) ++ t) ∧
    (∀ t lang : List Char, lang ≠ ("hebrew".data) →
      translateText t lang = ("Translation: ".data) ++ t) ∧
    ("תרגום: ".data ≠ ("Translation: ".data)) ∧
    (∀ t lang : List Char, ∃ u : List Char, translateText t lang = u ++ t) := by
  refine ⟨?_, ?_, ?_, ?_⟩
  · intro t; simp [translateText]
  · intro t lang h; simp [translateText, h]
  · decide
  · intro t lang
    by_cases h : lang = ("hebrew".data)
    · exact ⟨("תרגום: ".data), by simp [translateText, h]⟩
    · exact ⟨("Translation: ".data), by simp [translateText, h]⟩

theorem claim_C5_witness :
    translateText ("Hi".data) ("english".data) = ("Translation: ".data) ++ ("Hi".data) :=
  claim_C5.2.1 ("Hi".data) ("english".data) (by decide)

/-- C6: Multi-line caption preservation. For every accepted block the entry's
text equals all lines after the timecode line joined with newline and trimmed
at both ends; the concrete two-text-line block produces a single entry whose
text keeps its interior newline verbatim. -/
theorem claim_C6 :
    (∀ (b : List Char) (en : SRTEntry), parseBlock b = some en →
      en.text = trimJS (List.intercalate (['\n']) ((b.splitOn '\n').drop 2))) ∧
    parseSRT ("1\n00:00:01,000 --> 00:00:02,000\nLine one\nLine two".data) =
      [{ index := some 1, startTime := ("00:00:01,000".data),
         endTime := ("00:00:02,000".data), text := ("Line one\nLine two".data) }] := by
  constructor
  · intro b en h
    obtain ⟨l0, l1, l2, ls, hsp, _, _, htext⟩ := parseBlock_some h
    rw [htext, hsp]
    rfl
  · decide

theorem claim_C6_witness :
    ({ index := some 1, startTime := ("00:00:01,000".data),
       endTime := ("00:00:02,000".data),
       text := ("Line one\nLine two".data) } : SRTEntry).text =
      trimJS (List.intercalate (['\n'])
        ((("1\n00:00:01,000 --> 00:00:02,000\nLine one\nLine two".data).splitOn '\n').drop 2)) :=
  claim_C6.1 ("1\n00:00:01,000 --> 00:00:02,000\nLine one\nLine two".data) _ (by decide)

/-- C3: Malformed block dropping. Every block is processed by parseBlock inside
an order-preserving filterMap (first conjunct), a block with fewer than three
lines yields no entry (second conjunct), a block with at least three lines
whose second line has no timecode match yields no entry (third conjunct), and
the concrete block of the claim yields zero entries; no error is raised
anywhere (parseBlock and parseSRT are total functions). -/
theorem claim_C3 :
    (∀ X : List Char, parseSRT X = (splitBlocksJS (trimJS X)).filterMap parseBlock) ∧
    (∀ b : List Char, (b.splitOn '\n').length < 3 → parseBlock b = none) ∧
    (∀ (b l0 l1 l2 : List Char) (ls : List (List Char)),
      b.splitOn '\n' = l0 :: l1 :: l2 :: ls → findTimeMatch l1 = none →
      parseBlock b = none) ∧
    parseSRT ("5\nnot-a-timecode\nHello".data) = [] := by
  refine ⟨fun X => rfl, fun b h => parseBlock_short h, ?_, by decide⟩
  intro b l0 l1 l2 ls hsp hm
  exact parseBlock_nomatch hsp hm

theorem claim_C3_witness :
    parseBlock ("1\n00:00:01,000 --> 00:00:02,000".data) = none ∧
    parseBlock ("5\nnot-a-timecode\nHello".data) = none :=
  ⟨claim_C3.2.1 ("1\n00:00:01,000 --> 00:00:02,000".data) (by decide),
   claim_C3.2.2.1 ("5\nnot-a-timecode\nHello".data) ("5".data) ("not-a-timecode".data)
     ("Hello".data) [] (by decide) (by decide)⟩

/-- C9: Unguarded index parse is total and inert. Every accepted entry's index
field is exactly the unguarded parseInt of its trimmed first line, which is the
invalid value NaN (modelled as none) whenever no leading integer can be parsed
(first conjunct; note the parse is a total function in this embedding, so no
error can be raised); generateSRT is independent of every entry's index field
(second conjunct); and the concrete block with a non-numeric first line is
still emitted, carrying index none (third conjunct). -/
theorem claim_C9 :
    (∀ (b : List Char) (en : SRTEntry), parseBlock b = some en →
      en.index = jsParseInt (trimJS ((b.splitOn '\n').getD 0 []))) ∧
    (∀ (E : List SRTEntry) (ix : SRTEntry → Option Int),
      generateSRT (E.map (fun e => { e with index := ix e })) = generateSRT E) ∧
    parseSRT ("abc\n00:00:01,000 --> 00:00:02,000\nHi".data) =
      [{ index := none, startTime := ("00:00:01,000".data),
         endTime := ("00:00:02,000".data), text := ("Hi".data) }] := by
  refine ⟨?_, ?_, by decide⟩
  · intro b en h
    obtain ⟨l0, l1, l2, ls, hsp, _, hidx, _⟩ := parseBlock_some h
    rw [hidx, hsp]
    rfl
  · intro E ix
    rw [generateSRT_eq_range, generateSRT_eq_range, List.length_map]
    congr 1
    apply List.map_congr_left
    intro i hi
    have hiE : i < E.length := List.mem_range.mp hi
    rw [List.getD_eq_getElem _ default (by simpa using hiE),
        List.getD_eq_getElem _ default hiE, List.getElem_map]
    rfl

theorem claim_C9_witness :
    ({ index := none, startTime := ("00:00:01,000".data),
       endTime := ("00:00:02,000".data), text := ("Hi".data) } : SRTEntry).index =
      jsParseInt (trimJS
        ((("abc\n00:00:01,000 --> 00:00:02,000\nHi".data).splitOn '\n').getD 0 [])) :=
  claim_C9.1 ("abc\n00:00:01,000 --> 00:00:02,000\nHi".data) _ (by decide)

/-- C2: Timecode preservation. Every retained entry's startTime and endTime are
exactly the two captured substrings of its source block's second line — that
line decomposes as junk, startTime, arrow, endTime, junk, with both captures of
the timecode shape but never validated further (the witness retains an entry
whose end precedes its start); and generateSRT emits each entry's startTime and
endTime byte for byte, adjacent around the arrow, inside the generated output
(second conjunct). -/
theorem claim_C2 :
    (∀ (X : List Char) (en : SRTEntry), en ∈ parseSRT X →
      ∃ b ∈ splitBlocksJS (trimJS X), ∃ l0 l1 ls,
        b.splitOn '\n' = l0 :: l1 :: ls ∧
        findTimeMatch l1 = some (en.startTime, en.endTime) ∧
        isTimecode en.startTime = true ∧ isTimecode en.endTime = true ∧
        ∃ u v, l1 = u ++ ((en.startTime ++ (arrowSep ++ en.endTime)) ++ v)) ∧
    (∀ (E : List SRTEntry) (i : Nat), i < E.length →
      ∃ u v, generateSRT E =
        u ++ (((E.getD i default).startTime ++
          (arrowSep ++ (E.getD i default).endTime)) ++ v)) := by
  constructor
  · intro X en hen
    obtain ⟨b, hb, hpb⟩ := List.mem_filterMap.mp hen
    obtain ⟨l0, l1, l2, ls, hsp, hm, _, _⟩ := parseBlock_some hpb
    obtain ⟨hts, hte, u, v, huv⟩ := findTimeMatch_decomp l1 _ _ hm
    exact ⟨b, hb, l0, l1, l2 :: ls, hsp, hm, hts, hte, u, v, huv⟩
  · intro E i hi
    obtain ⟨u, v, huv⟩ := intercalate_mem_decomp (['\n']) (genBlock i (E.getD i default))
      ((List.range E.length).map (fun j => genBlock j (E.getD j default)))
      (List.mem_map.mpr ⟨i, List.mem_range.mpr hi, rfl⟩)
    refine ⟨u ++ (((Nat.repr (i + 1)).data) ++ ['\n']),
      ('\n' :: ((E.getD i default).text ++ ['\n'])) ++ v, ?_⟩
    rw [generateSRT_eq_range, huv]
    simp [genBlock, List.append_assoc]

theorem claim_C2_witness :
    (∃ b ∈ splitBlocksJS (trimJS ("1\n00:00:05,000 --> 00:00:01,000\nHi".data)),
      ∃ l0 l1 ls, b.splitOn '\n' = l0 :: l1 :: ls ∧
        findTimeMatch l1 = some (("00:00:05,000".data), ("00:00:01,000".data)) ∧
        isTimecode ("00:00:05,000".data) = true ∧
        isTimecode ("00:00:01,000".data) = true ∧
        ∃ u v, l1 = u ++ ((("00:00:05,000".data) ++
          (arrowSep ++ ("00:00:01,000".data))) ++ v)) ∧
    (∃ u v, generateSRT
        [{ index := some 1, startTime := ("00:00:05,000".data),
           endTime := ("00:00:01,000".data), text := ("Hi".data) }] =
      u ++ ((("00:00:05,000".data) ++ (arrowSep ++ ("00:00:01,000".data))) ++ v)) :=
  ⟨claim_C2.1 ("1\n00:00:05,000 --> 00:00:01,000\nHi".data)
      { index := some 1, startTime := ("00:00:05,000".data),
        endTime := ("00:00:01,000".data), text := ("Hi".data) } (by decide),
   claim_C2.2
     [{ index := some 1, startTime := ("00:00:05,000".data),
        endTime := ("00:00:01,000".data), text := ("Hi".data) }] 0 (by decide)⟩

/-- C7: All-or-nothing translation join. If the translation of any single
retained entry fails, handleTranslate leaves the translated-result state
exactly as it was (no partial output is stored) and surfaces the generic
error. -/
theorem claim_C7 : ∀ (tr : List Char → List Char → Except Unit (List Char))
    (lang content : List Char) (st : TState),
    (∃ en, en ∈ parseSRT content ∧ tr en.text lang = Except.error ()) →
    (handleTranslate tr lang content st).translatedSRT = st.translatedSRT ∧
    (handleTranslate tr lang content st).errorToast = true := by
  intro tr lang content st h
  obtain ⟨en, hen, herr⟩ := h
  have hmem : Except.error () ∈ (parseSRT content).map
      (fun e => (tr e.text lang).map (fun t => { e with text := t })) := by
    apply List.mem_map.mpr
    exact ⟨en, hen, by rw [herr]; rfl⟩
  have hall := promiseAll_error_of_mem _ hmem
  simp only [handleTranslate]
  rw [hall]
  exact ⟨rfl, rfl⟩

theorem claim_C7_witness :
    (handleTranslate (fun _ _ => Except.error ()) ("hebrew".data)
        ("1\n00:00:01,000 --> 00:00:02,000\nHi".data)
        { translatedSRT := ("old".data), originalEntries := [],
          errorToast := false, successToast := false }).translatedSRT =
      ({ translatedSRT := ("old".data), originalEntries := [],
          errorToast := false, successToast := false } : TState).translatedSRT ∧
    (handleTranslate (fun _ _ => Except.error ()) ("hebrew".data)
        ("1\n00:00:01,000 --> 00:00:02,000\nHi".data)
        { translatedSRT := ("old".data), originalEntries := [],
          errorToast := false, successToast := false }).errorToast = true :=
  claim_C7 (fun _ _ => Except.error ()) ("hebrew".data)
    ("1\n00:00:01,000 --> 00:00:02,000\nHi".data)
    { translatedSRT := ("old".data), originalEntries := [],
      errorToast := false, successToast := false }
    ⟨{ index := some 1, startTime := ("00:00:01,000".data),
       endTime := ("00:00:02,000".data), text := ("Hi".data) }, by decide, rfl⟩

/-- C8: Order preservation under concurrent translation. For every entry list,
target language and assignment of completion delays to the individual
asynchronous calls, the scheduler-level Promise.all join yields the translated
entries at their original positions (first conjunct), so the generated output
is exactly generateSRT of the translated entries in input order, never
reordered by completion time (second conjunct). -/
theorem claim_C8 : ∀ (entries : List SRTEntry) (lang : List Char)
    (delays : List Nat),
    promiseAllSim (entries.map (fun e => { e with text := translateText e.text lang }))
        delays =
      (entries.map (fun e => { e with text := translateText e.text lang })).map some ∧
    generateSRT ((promiseAllSim (entries.map
        (fun e => { e with text := translateText e.text lang })) delays).reduceOption) =
      generateSRT (entries.map (fun e => { e with text := translateText e.text lang })) := by
  intro entries lang delays
  have h := promiseAllSim_eq
    (entries.map (fun e => { e with text := translateText e.text lang })) delays
  exact ⟨h, by rw [h, reduceOption_map_some]⟩

/-- C10: Implicit — the timecode match is a substring search, not a full-line
match. Any line containing the pattern (timecode, arrow, timecode) anywhere,
with arbitrary characters before and after, is matched: the search succeeds and
returns two captures of exactly 12 characters each, of the timecode shape,
sitting adjacent around the arrow inside the line and excluding the surrounding
junk; concretely, a block whose timecode line carries leading junk, trailing
junk and a trailing carriage return is accepted with exactly the 12-character
timecodes as captures. -/
theorem claim_C10 :
    (∀ pre s e post : List Char, isTimecode s = true → isTimecode e = true →
      ∃ s₂ e₂, findTimeMatch (pre ++ (s ++ (arrowSep ++ (e ++ post)))) = some (s₂, e₂) ∧
        isTimecode s₂ = true ∧ isTimecode e₂ = true ∧
        s₂.length = 12 ∧ e₂.length = 12 ∧
        ∃ u v, pre ++ (s ++ (arrowSep ++ (e ++ post))) =
          u ++ ((s₂ ++ (arrowSep ++ e₂)) ++ v)) ∧
    parseSRT ("1\nxx00:00:01,000 --> 00:00:02,000yy\r\nHello".data) =
      [{ index := some 1, startTime := ("00:00:01,000".data),
         endTime := ("00:00:02,000".data), text := ("Hello".data) }] := by
  constructor
  · intro pre s e post hs he
    obtain ⟨⟨s₂, e₂⟩, hr⟩ := findTimeMatch_of_contains pre _
      ⟨(s, e), findTimeMatch_start hs he⟩
    obtain ⟨hts, hte, u, v, huv⟩ := findTimeMatch_decomp _ _ _ hr
    exact ⟨s₂, e₂, hr, hts, hte, isTimecode_length hts, isTimecode_length hte,
      u, v, huv⟩
  · decide

theorem claim_C10_witness :
    ∃ s₂ e₂, findTimeMatch (("x".data) ++ (("00:00:01,000".data) ++
        (arrowSep ++ (("00:00:02,000".data) ++ ("\r".data))))) = some (s₂, e₂) ∧
      isTimecode s₂ = true ∧ isTimecode e₂ = true ∧
      s₂.length = 12 ∧ e₂.length = 12 ∧
      ∃ u v, ("x".data) ++ (("00:00:01,000".data) ++
          (arrowSep ++ (("00:00:02,000".data) ++ ("\r".data)))) =
        u ++ ((s₂ ++ (arrowSep ++ e₂)) ++ v) :=
  claim_C10.1 ("x".data) ("00:00:01,000".data) ("00:00:02,000".data) ("\r".data)
    (by decide) (by decide)
